import Mathlib

/-!
Shallow embedding of the BiUH score-calculator core (src/src/App.jsx).

JavaScript numbers are modelled as rationals (`ℚ`); `null`/`undefined`
values are modelled with `Option`.  Raw input strings are Lean `String`s
and the numeric prefix parsing of `Number.parseFloat` is embedded as a
total function on character lists.
-/

namespace BiUH

/-- Result of a JavaScript numeric parse: NaN, a signed infinity, or a
finite value (modelled as a rational). -/
inductive JsNumber where
  | nan : JsNumber
  | inf (neg : Bool) : JsNumber
  | val (q : ℚ) : JsNumber
deriving DecidableEq, Repr

/-- Characters `Number.parseFloat` skips as leading whitespace. -/
def jsWhitespace : List Char := [' ', '\t', '\n', '\r', Char.ofNat 11, Char.ofNat 12]

def isDigitChar (c : Char) : Bool := '0' ≤ c && c ≤ '9'

/-- Value of a list of decimal digit characters, most significant first. -/
def digitsToNat (ds : List Char) : ℕ :=
  ds.foldl (fun n c => 10 * n + (c.toNat - 48)) 0

/-- The mantissa/exponent combination parsed from the character stream,
as a rational: `mant / 10^fracLen` scaled by `10^exp`. -/
def assembleFloat (neg : Bool) (intDigits fracDigits : List Char)
    (expNeg : Bool) (expDigits : List Char) : ℚ :=
  let mant : ℚ := (digitsToNat (intDigits ++ fracDigits) : ℚ) / (10 : ℚ) ^ fracDigits.length
  let e : ℕ := digitsToNat expDigits
  let scaled : ℚ := if expNeg then mant / (10 : ℚ) ^ e else mant * (10 : ℚ) ^ e
  if neg then -scaled else scaled

/-- Embedding of `Number.parseFloat`: skip leading whitespace, read an
optional sign, then the longest prefix that is a decimal literal
(digits, optional fraction, optional exponent) or `Infinity`; anything
after that prefix is ignored.  No valid prefix yields NaN. -/
def parseFloat (s : String) : JsNumber :=
  let cs := s.toList.dropWhile (fun c => jsWhitespace.contains c)
  let (neg, cs) :=
    match cs with
    | '-' :: rest => (true, rest)
    | '+' :: rest => (false, rest)
    | rest => (false, rest)
  if cs.take 8 = "Infinity".toList then JsNumber.inf neg
  else
    let intDigits := cs.takeWhile isDigitChar
    let rest := cs.dropWhile isDigitChar
    let (fracDigits, rest) :=
      match rest with
      | '.' :: afterDot => (afterDot.takeWhile isDigitChar, afterDot.dropWhile isDigitChar)
      | _ => ([], rest)
    if intDigits = [] ∧ fracDigits = [] then JsNumber.nan
    else
      let (expNeg, expDigits) :=
        match rest with
        | 'e' :: '-' :: ds => (true, ds.takeWhile isDigitChar)
        | 'e' :: '+' :: ds => (false, ds.takeWhile isDigitChar)
        | 'e' :: ds => (false, ds.takeWhile isDigitChar)
        | 'E' :: '-' :: ds => (true, ds.takeWhile isDigitChar)
        | 'E' :: '+' :: ds => (false, ds.takeWhile isDigitChar)
        | 'E' :: ds => (false, ds.takeWhile isDigitChar)
        | _ => (false, [])
      JsNumber.val (assembleFloat neg intDigits fracDigits expNeg expDigits)

/-- Embedding of `parseNumber` from App.jsx: `''`, `null`, `undefined` give `null`;
otherwise `Number.parseFloat`, keeping only finite results.  `none` on
the input models `null`/`undefined`. -/
def parseNumber (value : Option String) : Option ℚ :=
  match value with
  | none => none
  | some s =>
    if s = "" then none
    else
      match parseFloat s with
      | JsNumber.val q => some q
      | _ => none

/-- Embedding of `isValidScore` from App.jsx: non-null and `0 ≤ score ≤ 100`. -/
def isValidScore (score : Option ℚ) : Bool :=
  match score with
  | none => false
  | some s => decide (0 ≤ s) && decide (s ≤ 100)

/-- Embedding of `isValidCredit` from App.jsx: non-null and strictly positive. -/
def isValidCredit (credit : Option ℚ) : Bool :=
  match credit with
  | none => false
  | some c => decide (0 < c)

def NMAX : ℚ := 100

def NMIN : ℚ := 60

/-- Embedding of `germanGrade` from App.jsx: `null` for invalid scores, a hard `5`
below `NMIN`, otherwise the linear formula clamped to `[1, 4]` by
`Math.min(4, Math.max(1, value))`. -/
def germanGrade (score : Option ℚ) : Option ℚ :=
  if !isValidScore score then none
  else if score.getD 0 < NMIN then some 5
  else
    let value := 1 + 3 * ((NMAX - score.getD 0) / (NMAX - NMIN))
    some (min 4 (max 1 value))

structure Evaluation where
  label : String
  grade : ℕ
deriving DecidableEq, Repr

/-- Embedding of `evaluation` from App.jsx: five descending threshold bands, first
match wins; `null` for invalid scores. -/
def evaluation (score : Option ℚ) : Option Evaluation :=
  if !isValidScore score then none
  else
    let s := score.getD 0
    if 93 ≤ s then some ⟨"Very Good / 优秀", 1⟩
    else if 80 ≤ s then some ⟨"Good / 良好", 2⟩
    else if 67 ≤ s then some ⟨"Satisfactory / 尚可", 3⟩
    else if 60 ≤ s then some ⟨"Sufficient / 及格", 4⟩
    else some ⟨"Insufficient / 不及格", 5⟩

/-- Embedding of `gpaFromPercentage` from App.jsx: `null` for a null/non-finite
average (all rationals are finite, so `none` covers those inputs),
otherwise clamp to `[0, NMAX]` and rescale linearly. -/
def gpaFromPercentage (score : Option ℚ) (scale : ℚ) : Option ℚ :=
  match score with
  | none => none
  | some s =>
    let clamped := min NMAX (max 0 s)
    some (clamped / NMAX * scale)

/-- A derived course record fed to `calculateTotals`: name, credit and
parsed score.  Name and credit are optional because the culture row of
`semesterViews` reads them off `cultureOption.label` / `.credit`, which
are `undefined` when the resolved value is a function inherited from
`Object.prototype` rather than a catalog entry. -/
structure CourseRecord where
  name : Option String
  credit : Option ℚ
  score : Option ℚ
deriving DecidableEq, Repr

structure Totals where
  totalCredits : ℚ
  weightedScore : Option ℚ
  weightedGerman : Option ℚ
  count : ℕ
deriving DecidableEq, Repr

/-- Embedding of `calculateTotals` from App.jsx: filter to records passing both
validators, take the three `reduce` sums, and divide unless the credit
total is zero (JS truthiness of `totalCredits`). -/
def calculateTotals (courses : List CourseRecord) : Totals :=
  let validCourses := courses.filter
    (fun course => isValidScore course.score && isValidCredit course.credit)
  let totalCredits := validCourses.foldl (fun sum course => sum + course.credit.getD 0) 0
  let weightedScore := validCourses.foldl
    (fun sum course => sum + course.score.getD 0 * course.credit.getD 0) 0
  let weightedGerman := validCourses.foldl
    (fun sum course => sum + (germanGrade course.score).getD 0 * course.credit.getD 0) 0
  { totalCredits := totalCredits
    weightedScore := if totalCredits = 0 then none else some (weightedScore / totalCredits)
    weightedGerman := if totalCredits = 0 then none else some (weightedGerman / totalCredits)
    count := validCourses.length }

/-- An entry of the `CHINESE_CULTURE_OPTIONS` catalog in App.jsx. -/
structure CultureOption where
  key : String
  label : String
  credit : ℚ
deriving DecidableEq, Repr, Inhabited

def CHINESE_CULTURE_OPTIONS : List CultureOption :=
  [ ⟨"cc-1", "Chinese Culture I", 3⟩,
    ⟨"cc-2", "Chinese Culture II", 3⟩,
    ⟨"cc-3-1", "Chinese Culture III-1", 2⟩,
    ⟨"cc-3-2", "Chinese Culture III-2", 2⟩,
    ⟨"cc-3-3", "Chinese Culture III-3", 1⟩,
    ⟨"cc-4-1", "Chinese Culture IV-1", 5/2⟩,
    ⟨"cc-4-2", "Chinese Culture IV-2", 5/2⟩ ]

/-- Result of reading a property off the plain JS object `CULTURE_MAP`:
an own entry put there by the `reduce`, a truthy value inherited from
`Object.prototype` (a function, or `Object.prototype` itself for the
key `__proto__`), or `undefined`. -/
inductive CultureLookup where
  | entry (opt : CultureOption) : CultureLookup
  | inherited : CultureLookup
  | undef : CultureLookup
deriving DecidableEq, Repr

/-- Property names a plain object literal inherits from
`Object.prototype`; reading any of them yields a truthy value. -/
def OBJECT_PROTOTYPE_KEYS : List String :=
  [ "constructor", "hasOwnProperty", "isPrototypeOf", "propertyIsEnumerable",
    "toLocaleString", "toString", "valueOf",
    "__defineGetter__", "__defineSetter__", "__lookupGetter__", "__lookupSetter__",
    "__proto__" ]

/-- Lookup in `CULTURE_MAP` from App.jsx.  The map is a plain object
built by a `reduce` whose assignment lets a later entry overwrite an
earlier one with the same key, so an own key finds the last matching
entry; a missing key falls through to the `Object.prototype` chain and
yields an inherited truthy value or `undefined`. -/
def CULTURE_MAP (key : String) : CultureLookup :=
  match CHINESE_CULTURE_OPTIONS.reverse.find? (fun item => item.key = key) with
  | some opt => CultureLookup.entry opt
  | none =>
    if key ∈ OBJECT_PROTOTYPE_KEYS then CultureLookup.inherited
    else CultureLookup.undef

/-- Field access `x.label` on the looked-up value: `undefined` unless
the value is a catalog entry. -/
def lookupLabel : CultureLookup → Option String
  | CultureLookup.entry opt => some opt.label
  | _ => none

/-- Field access `x.credit` on the looked-up value: `undefined` unless
the value is a catalog entry. -/
def lookupCredit : CultureLookup → Option ℚ
  | CultureLookup.entry opt => some opt.credit
  | _ => none

def CREDIT_STANDARD_language : ℚ := 5/2

def CREDIT_STANDARD_major : ℚ := 5

structure MajorCourse where
  id : String
  name : String
  score : String
deriving DecidableEq, Repr

/-- A semester as held in React state: raw input strings everywhere. -/
structure Semester where
  id : String
  english : String
  german : String
  majorCourses : List MajorCourse
  cultureKey : String
  cultureScore : String
deriving DecidableEq, Repr

/-- The value a semester's culture row resolves to:
`CULTURE_MAP[semester.cultureCourse.courseKey] || CHINESE_CULTURE_OPTIONS[0]`.
Only `undefined` is falsy here, so the first-entry fallback fires for a
missing key but not for a truthy inherited prototype property. -/
def cultureOptionOf (sem : Semester) : CultureLookup :=
  match CULTURE_MAP sem.cultureKey with
  | CultureLookup.undef => CultureLookup.entry CHINESE_CULTURE_OPTIONS.headI
  | found => found

/-- The `allCourses` expansion of a semester inside `semesterViews`:
the two language rows, one row per major course, and the culture row. -/
def allCourses (sem : Semester) : List CourseRecord :=
  let cultureOption := cultureOptionOf sem
  [ ⟨some "English / 英语", some CREDIT_STANDARD_language, parseNumber (some sem.english)⟩,
    ⟨some "German / 德语", some CREDIT_STANDARD_language, parseNumber (some sem.german)⟩ ]
  ++ sem.majorCourses.map
      (fun course =>
        ⟨some course.name, some CREDIT_STANDARD_major, parseNumber (some course.score)⟩)
  ++ [⟨lookupLabel cultureOption, lookupCredit cultureOption, parseNumber (some sem.cultureScore)⟩]

/-- Embedding of `updateSemester` from App.jsx: map over the semester list, replacing
the semesters whose id matches. -/
def updateSemester (semesters : List Semester) (id : String)
    (updater : Semester → Semester) : List Semester :=
  semesters.map (fun sem => if sem.id = id then updater sem else sem)

/-- Embedding of `addMajorCourse` from App.jsx: append a blank major course to the
matching semester. -/
def addMajorCourse (semesters : List Semester) (semesterId newCourseId : String) :
    List Semester :=
  updateSemester semesters semesterId
    (fun sem => { sem with majorCourses := sem.majorCourses ++ [⟨newCourseId, "", ""⟩] })

/-- The filtered list of countable records inside `calculateTotals`:
exactly the records passing both validators. -/
def validRecords (courses : List CourseRecord) : List CourseRecord :=
  courses.filter (fun course => isValidScore course.score && isValidCredit course.credit)

theorem foldl_add_eq_sum (f : CourseRecord → ℚ) (l : List CourseRecord) (a : ℚ) :
    l.foldl (fun sum c => sum + f c) a = a + (l.map f).sum := by
  induction l generalizing a with
  | nil => simp
  | cons x xs ih => simp [List.foldl_cons, ih]; ring

theorem calculateTotals_unfold (l : List CourseRecord) :
    calculateTotals l =
      { totalCredits := ((validRecords l).map (fun c => c.credit.getD 0)).sum,
        weightedScore :=
          if ((validRecords l).map (fun c => c.credit.getD 0)).sum = 0 then none
          else some (((validRecords l).map (fun c => c.score.getD 0 * c.credit.getD 0)).sum /
            ((validRecords l).map (fun c => c.credit.getD 0)).sum),
        weightedGerman :=
          if ((validRecords l).map (fun c => c.credit.getD 0)).sum = 0 then none
          else some
            (((validRecords l).map (fun c => (germanGrade c.score).getD 0 * c.credit.getD 0)).sum /
            ((validRecords l).map (fun c => c.credit.getD 0)).sum),
        count := (validRecords l).length } := by
  simp [calculateTotals, validRecords, foldl_add_eq_sum]

theorem sum_eq_zero_iff_of_pos (L : List ℚ) (h : ∀ x ∈ L, 0 < x) : L.sum = 0 ↔ L = [] := by
  cases L with
  | nil => simp
  | cons x xs =>
    simp only [List.sum_cons]
    have hx : 0 < x := h x (List.mem_cons_self x xs)
    have hxs : 0 ≤ xs.sum :=
      List.sum_nonneg (fun y hy => le_of_lt (h y (List.mem_cons_of_mem x hy)))
    constructor
    · intro he; exfalso; linarith
    · intro he; exact absurd he (List.cons_ne_nil x xs)

theorem validRecords_credit_pos (l : List CourseRecord) :
    ∀ x ∈ (validRecords l).map (fun c => c.credit.getD 0), 0 < x := by
  intro x hx
  rcases List.mem_map.mp hx with ⟨c, hc, rfl⟩
  have hfil := List.of_mem_filter hc
  cases hcred : c.credit with
  | none => rw [hcred] at hfil; simp [isValidCredit] at hfil
  | some q =>
    rw [hcred] at hfil
    simp [isValidCredit] at hfil
    simpa [hcred] using hfil.2

theorem isValidScore_some (s : ℚ) : isValidScore (some s) = true ↔ 0 ≤ s ∧ s ≤ 100 := by
  simp [isValidScore]

theorem isValidScore_some_false (s : ℚ) (h : ¬(0 ≤ s ∧ s ≤ 100)) :
    isValidScore (some s) = false := by
  rw [Bool.eq_false_iff]
  intro hbtrue
  exact h ((isValidScore_some s).mp hbtrue)

/-- C1: `calculateTotals` keeps exactly the records passing both
`isValidScore` and `isValidCredit` (the `validRecords` filter), and over
that filtered set returns the credit sum, the credit-weighted score and
secondary-grade averages (guarded by the zero-credit case the code
tests with JS truthiness), and the count of filtered records. -/
theorem calculateTotals_spec (l : List CourseRecord) :
    calculateTotals l =
      { totalCredits := ((validRecords l).map (fun c => c.credit.getD 0)).sum,
        weightedScore :=
          if ((validRecords l).map (fun c => c.credit.getD 0)).sum = 0 then none
          else some (((validRecords l).map (fun c => c.score.getD 0 * c.credit.getD 0)).sum /
            ((validRecords l).map (fun c => c.credit.getD 0)).sum),
        weightedGerman :=
          if ((validRecords l).map (fun c => c.credit.getD 0)).sum = 0 then none
          else some
            (((validRecords l).map (fun c => (germanGrade c.score).getD 0 * c.credit.getD 0)).sum /
            ((validRecords l).map (fun c => c.credit.getD 0)).sum),
        count := (validRecords l).length } :=
  calculateTotals_unfold l

/-- C2: `germanGrade` is `none` exactly on invalid scores, a hard `5` on
valid scores below 60, the clamped linear formula on `[60, 100]`, and
never produces a value strictly between 4 and 5. -/
theorem germanGrade_spec (s : ℚ) :
    germanGrade none = none ∧
    (¬(0 ≤ s ∧ s ≤ 100) → germanGrade (some s) = none) ∧
    (0 ≤ s ∧ s < 60 → germanGrade (some s) = some 5) ∧
    (60 ≤ s ∧ s ≤ 100 →
      germanGrade (some s) = some (min 4 (max 1 (1 + 3 * ((100 - s) / (100 - 60)))))) ∧
    (∀ g, germanGrade (some s) = some g → ¬(4 < g ∧ g < 5)) := by
  refine ⟨by simp [germanGrade, isValidScore], ?_, ?_, ?_, ?_⟩
  · intro h
    simp [germanGrade, isValidScore_some_false s h]
  · rintro ⟨h0, h60⟩
    have hb : isValidScore (some s) = true := (isValidScore_some s).mpr ⟨h0, by linarith⟩
    simp [germanGrade, hb, NMIN, h60]
  · rintro ⟨h60, h100⟩
    have hb : isValidScore (some s) = true := (isValidScore_some s).mpr ⟨by linarith, h100⟩
    have hlt : ¬ (s < 60) := by linarith
    simp [germanGrade, hb, NMIN, NMAX, hlt]
  · intro g hg hbad
    by_cases hv : 0 ≤ s ∧ s ≤ 100
    · have hb : isValidScore (some s) = true := (isValidScore_some s).mpr hv
      by_cases hlt : s < 60
      · simp [germanGrade, hb, NMIN, hlt] at hg
        rw [← hg] at hbad
        norm_num at hbad
      · simp [germanGrade, hb, NMIN, NMAX, hlt] at hg
        have hle : g ≤ 4 := by rw [← hg]; exact min_le_left _ _
        linarith [hbad.1]
    · simp [germanGrade, isValidScore_some_false s hv] at hg

/-- Witness for C2 at scores 30, 70 and 120, one per hypothesis. -/
theorem germanGrade_spec_witness :
    germanGrade (some 30) = some 5 ∧
    germanGrade (some 70) = some (min 4 (max 1 (1 + 3 * ((100 - 70) / (100 - 60))))) ∧
    germanGrade (some 120) = none :=
  ⟨(germanGrade_spec 30).2.2.1 ⟨by norm_num, by norm_num⟩,
   (germanGrade_spec 70).2.2.2.1 ⟨by norm_num, by norm_num⟩,
   (germanGrade_spec 120).2.1 (by intro hc; exact absurd hc.2 (by norm_num))⟩

/-- C3: `evaluation` returns tier 1 iff the score is at least 93,
tier 2 on `[80, 93)`, tier 3 on `[67, 80)`, tier 4 on `[60, 67)`,
tier 5 below 60, and `none` on invalid scores. -/
theorem evaluation_spec (s : ℚ) :
    evaluation none = none ∧
    (¬(0 ≤ s ∧ s ≤ 100) → evaluation (some s) = none) ∧
    (0 ≤ s ∧ s ≤ 100 →
      (((evaluation (some s)).map Evaluation.grade = some 1) ↔ 93 ≤ s) ∧
      (((evaluation (some s)).map Evaluation.grade = some 2) ↔ 80 ≤ s ∧ s < 93) ∧
      (((evaluation (some s)).map Evaluation.grade = some 3) ↔ 67 ≤ s ∧ s < 80) ∧
      (((evaluation (some s)).map Evaluation.grade = some 4) ↔ 60 ≤ s ∧ s < 67) ∧
      (((evaluation (some s)).map Evaluation.grade = some 5) ↔ s < 60)) := by
  refine ⟨by simp [evaluation, isValidScore], ?_, ?_⟩
  · intro h
    simp [evaluation, isValidScore_some_false s h]
  · rintro ⟨h0, h100⟩
    have hb : isValidScore (some s) = true := (isValidScore_some s).mpr ⟨h0, h100⟩
    rcases le_or_lt 93 s with h93 | h93
    · have he : evaluation (some s) = some ⟨"Very Good / 优秀", 1⟩ := by
        simp [evaluation, hb, h93]
      rw [he]
      refine ⟨?_, ?_, ?_, ?_, ?_⟩ <;> simp only [Option.map_some', Option.some.injEq] <;>
        constructor <;> intro h <;>
        first
          | rfl
          | linarith
          | (exact absurd h (by omega))
          | (constructor <;> linarith)
          | (exfalso; obtain ⟨h1, h2⟩ := h; linarith)
    · rcases le_or_lt 80 s with h80 | h80
      · have he : evaluation (some s) = some ⟨"Good / 良好", 2⟩ := by
          simp [evaluation, hb, not_le.mpr h93, h80]
        rw [he]
        refine ⟨?_, ?_, ?_, ?_, ?_⟩ <;> simp only [Option.map_some', Option.some.injEq] <;>
          constructor <;> intro h <;>
          first
            | rfl
            | linarith
            | (exact absurd h (by omega))
            | (constructor <;> linarith)
            | (exfalso; obtain ⟨h1, h2⟩ := h; linarith)
      · rcases le_or_lt 67 s with h67 | h67
        · have he : evaluation (some s) = some ⟨"Satisfactory / 尚可", 3⟩ := by
            simp [evaluation, hb, not_le.mpr h93, not_le.mpr h80, h67]
          rw [he]
          refine ⟨?_, ?_, ?_, ?_, ?_⟩ <;> simp only [Option.map_some', Option.some.injEq] <;>
            constructor <;> intro h <;>
            first
              | rfl
              | linarith
              | (exact absurd h (by omega))
              | (constructor <;> linarith)
              | (exfalso; obtain ⟨h1, h2⟩ := h; linarith)
        · rcases le_or_lt 60 s with h60 | h60
          · have he : evaluation (some s) = some ⟨"Sufficient / 及格", 4⟩ := by
              simp [evaluation, hb, not_le.mpr h93, not_le.mpr h80, not_le.mpr h67, h60]
            rw [he]
            refine ⟨?_, ?_, ?_, ?_, ?_⟩ <;> simp only [Option.map_some', Option.some.injEq] <;>
              constructor <;> intro h <;>
              first
                | rfl
                | linarith
                | (exact absurd h (by omega))
                | (constructor <;> linarith)
                | (exfalso; obtain ⟨h1, h2⟩ := h; linarith)
          · have he : evaluation (some s) = some ⟨"Insufficient / 不及格", 5⟩ := by
              simp [evaluation, hb, not_le.mpr h93, not_le.mpr h80, not_le.mpr h67,
                not_le.mpr h60]
            rw [he]
            refine ⟨?_, ?_, ?_, ?_, ?_⟩ <;> simp only [Option.map_some', Option.some.injEq] <;>
              constructor <;> intro h <;>
              first
                | rfl
                | linarith
                | (exact absurd h (by omega))
                | (constructor <;> linarith)
                | (exfalso; obtain ⟨h1, h2⟩ := h; linarith)

/-- Witness for C3 at the boundary scores 93 and 80. -/
theorem evaluation_spec_witness :
    ((evaluation (some 93)).map Evaluation.grade = some 1) ∧
    ((evaluation (some 80)).map Evaluation.grade = some 2) :=
  ⟨((evaluation_spec 93).2.2 ⟨by norm_num, by norm_num⟩).1.mpr (by norm_num),
   ((evaluation_spec 80).2.2 ⟨by norm_num, by norm_num⟩).2.1.mpr ⟨by norm_num, by norm_num⟩⟩

/-- C4: `calculateTotals` returns `none` for both weighted averages
exactly when no record passes both validators (equivalently, when the
credit total is zero), and on the empty list returns the all-zero and
all-null record; the result is always a defined `Totals` value, never
an exception. -/
theorem calculateTotals_nullIffNoValid (l : List CourseRecord) :
    ((calculateTotals l).weightedScore = none ↔ validRecords l = []) ∧
    ((calculateTotals l).weightedGerman = none ↔ validRecords l = []) ∧
    ((calculateTotals l).totalCredits = 0 ↔ validRecords l = []) ∧
    calculateTotals [] =
      { totalCredits := 0, weightedScore := none, weightedGerman := none, count := 0 } := by
  have hz : ((validRecords l).map (fun c => c.credit.getD 0)).sum = 0 ↔ validRecords l = [] := by
    rw [sum_eq_zero_iff_of_pos _ (validRecords_credit_pos l)]
    simp
  refine ⟨?_, ?_, ?_, ?_⟩
  · rw [calculateTotals_unfold]
    by_cases hc : ((validRecords l).map (fun c => c.credit.getD 0)).sum = 0 <;> simp [hc, hz.symm]
  · rw [calculateTotals_unfold]
    by_cases hc : ((validRecords l).map (fun c => c.credit.getD 0)).sum = 0 <;> simp [hc, hz.symm]
  · rw [calculateTotals_unfold]
    exact hz
  · simp [calculateTotals]

/-- C5: `gpaFromPercentage` is `none` on a null average and otherwise
clamps the average to `[0, 100]` and rescales linearly onto the target
scale; in particular 80 on scale 4 gives 3.2, 100 on scale 4 gives 4,
and 120 on scale 5 clamps to 5. -/
theorem gpaFromPercentage_spec (avg k : ℚ) :
    gpaFromPercentage none k = none ∧
    gpaFromPercentage (some avg) k = some (min 100 (max 0 avg) / 100 * k) ∧
    gpaFromPercentage (some 80) 4 = some (16/5) ∧
    gpaFromPercentage (some 100) 4 = some 4 ∧
    gpaFromPercentage (some 120) 5 = some 5 := by
  refine ⟨rfl, rfl, ?_, ?_, ?_⟩ <;> norm_num [gpaFromPercentage, NMAX]

/-- C6: on `[60, 100]` the secondary grade exists, lies in `[1, 4]`,
is monotonically non-increasing in the score, and takes the value 1 at
100 and 4 at 60. -/
theorem germanGrade_mono (s t : ℚ) (hs : 60 ≤ s ∧ s ≤ 100) (ht : 60 ≤ t ∧ t ≤ 100)
    (hst : s ≤ t) :
    ∃ gs gt, germanGrade (some s) = some gs ∧ germanGrade (some t) = some gt ∧
      gt ≤ gs ∧ 1 ≤ gs ∧ gs ≤ 4 ∧
      germanGrade (some 100) = some 1 ∧ germanGrade (some 60) = some 4 := by
  have hval : ∀ u : ℚ, 60 ≤ u → u ≤ 100 →
      germanGrade (some u) = some (min 4 (max 1 (1 + 3 * ((100 - u) / (100 - 60))))) := by
    intro u h1 h2
    have hb : isValidScore (some u) = true := (isValidScore_some u).mpr ⟨by linarith, h2⟩
    have hlt : ¬ (u < 60) := by linarith
    simp [germanGrade, hb, NMIN, NMAX, hlt]
  refine ⟨_, _, hval s hs.1 hs.2, hval t ht.1 ht.2, ?_, ?_, ?_, ?_, ?_⟩
  · have h40 : (0:ℚ) < 100 - 60 := by norm_num
    have hd : (100 - t) / ((100:ℚ) - 60) ≤ (100 - s) / ((100:ℚ) - 60) :=
      (div_le_div_iff_of_pos_right h40).mpr (by linarith)
    have hv2 : 1 + 3 * ((100 - t) / ((100:ℚ) - 60)) ≤ 1 + 3 * ((100 - s) / ((100:ℚ) - 60)) := by
      linarith
    exact min_le_min (le_refl 4) (max_le_max (le_refl 1) hv2)
  · exact le_min (by norm_num) (le_max_left 1 _)
  · exact min_le_left _ _
  · rw [hval 100 (by norm_num) (by norm_num)]; norm_num
  · rw [hval 60 (by norm_num) (by norm_num)]; norm_num

/-- Witness for C6 at the pair of scores 60 and 100. -/
theorem germanGrade_mono_witness :
    ∃ gs gt, germanGrade (some 60) = some gs ∧ germanGrade (some 100) = some gt ∧
      gt ≤ gs ∧ 1 ≤ gs ∧ gs ≤ 4 ∧
      germanGrade (some 100) = some 1 ∧ germanGrade (some 60) = some 4 :=
  germanGrade_mono 60 100 ⟨by norm_num, by norm_num⟩ ⟨by norm_num, by norm_num⟩ (by norm_num)

/-- Counterexample to C7 as originally stated: `toString` is not a key
of the catalog, yet the culture row does not resolve to the catalog's
first entry.  The object lookup hits the truthy inherited
`Object.prototype.toString`, the `||` fallback never fires, and the
derived record's name and credit are `undefined`, not the first
entry's label and credit. -/
theorem cultureCourse_fallback_cex :
    (∀ opt ∈ CHINESE_CULTURE_OPTIONS, opt.key ≠ "toString") ∧
    cultureOptionOf ⟨"s1", "", "", [], "toString", ""⟩ ≠
      CultureLookup.entry ⟨"cc-1", "Chinese Culture I", 3⟩ ∧
    (allCourses ⟨"s1", "", "", [], "toString", ""⟩).getLast? ≠
      some ⟨some "Chinese Culture I", some 3, parseNumber (some "")⟩ ∧
    (allCourses ⟨"s1", "", "", [], "toString", ""⟩).getLast? = some ⟨none, none, none⟩ := by
  refine ⟨by decide, by decide, by decide, by decide⟩

/-- C7 (amended): a semester whose stored culture key is neither a
catalog key nor a property name inherited from `Object.prototype`
resolves to the catalog's first entry, so the derived culture course
record (the last record of `allCourses`) carries that entry's label and
credit; `cultureOptionOf` is total, so the derivation cannot fail. -/
theorem cultureCourse_fallback (sem : Semester)
    (h : ∀ opt ∈ CHINESE_CULTURE_OPTIONS, opt.key ≠ sem.cultureKey)
    (h2 : sem.cultureKey ∉ OBJECT_PROTOTYPE_KEYS) :
    cultureOptionOf sem = CultureLookup.entry ⟨"cc-1", "Chinese Culture I", 3⟩ ∧
    (allCourses sem).getLast? =
      some ⟨some "Chinese Culture I", some 3, parseNumber (some sem.cultureScore)⟩ := by
  have hfind : CHINESE_CULTURE_OPTIONS.reverse.find?
      (fun item => item.key = sem.cultureKey) = none := by
    rw [List.find?_eq_none]
    intro item hitem
    simpa using h item (List.mem_reverse.mp hitem)
  have hm : CULTURE_MAP sem.cultureKey = CultureLookup.undef := by
    rw [CULTURE_MAP, hfind]
    simp [h2]
  have hopt : cultureOptionOf sem = CultureLookup.entry ⟨"cc-1", "Chinese Culture I", 3⟩ := by
    rw [cultureOptionOf, hm]
    rfl
  refine ⟨hopt, ?_⟩
  rw [allCourses]
  simp only [hopt, lookupLabel, lookupCredit]
  rw [List.getLast?_concat]

/-- Witness for C7: a semester storing the unknown, non-inherited key
`nope`. -/
theorem cultureCourse_fallback_witness :
    cultureOptionOf ⟨"s1", "", "", [], "nope", ""⟩ =
      CultureLookup.entry ⟨"cc-1", "Chinese Culture I", 3⟩ ∧
    (allCourses ⟨"s1", "", "", [], "nope", ""⟩).getLast? =
      some ⟨some "Chinese Culture I", some 3, parseNumber (some "")⟩ :=
  cultureCourse_fallback ⟨"s1", "", "", [], "nope", ""⟩ (by decide) (by decide)

/-- C8: `addMajorCourse` lengthens the `allCourses` expansion of the
targeted semester by exactly one record and leaves every other semester
of the transcript unchanged. -/
theorem addMajorCourse_frame (semesters : List Semester) (semesterId newCourseId : String)
    (i : ℕ) (sem : Semester) (h : semesters[i]? = some sem) :
    (sem.id = semesterId →
      ∃ sem2, (addMajorCourse semesters semesterId newCourseId)[i]? = some sem2 ∧
        (allCourses sem2).length = (allCourses sem).length + 1) ∧
    (sem.id ≠ semesterId →
      (addMajorCourse semesters semesterId newCourseId)[i]? = some sem) := by
  have hmap : (addMajorCourse semesters semesterId newCourseId)[i]? =
      some (if sem.id = semesterId
        then { sem with majorCourses := sem.majorCourses ++ [⟨newCourseId, "", ""⟩] }
        else sem) := by
    rw [addMajorCourse, updateSemester, List.getElem?_map, h]
    rfl
  constructor
  · intro hid
    refine ⟨_, hmap, ?_⟩
    simp only [hid, if_pos rfl]
    simp [allCourses, cultureOptionOf]
  · intro hid
    rw [hmap, if_neg hid]

/-- Witness for C8: a one-semester transcript whose semester receives a
new major course. -/
theorem addMajorCourse_frame_witness :
    ∃ sem2, (addMajorCourse [⟨"s1", "", "", [], "cc-1", ""⟩] "s1" "m1")[0]? = some sem2 ∧
      (allCourses sem2).length =
        (allCourses (⟨"s1", "", "", [], "cc-1", ""⟩ : Semester)).length + 1 :=
  (addMajorCourse_frame [⟨"s1", "", "", [], "cc-1", ""⟩] "s1" "m1" 0 _ rfl).1 rfl

/-- C9: `calculateTotals` is invariant under permutation of its input
records (exactly, since the embedding sums rationals). -/
theorem calculateTotals_perm (l₁ l₂ : List CourseRecord) (h : l₁.Perm l₂) :
    calculateTotals l₁ = calculateTotals l₂ := by
  have hf : (validRecords l₁).Perm (validRecords l₂) := h.filter _
  have hc := (hf.map (fun c => c.credit.getD 0)).sum_eq
  have hs := (hf.map (fun c => c.score.getD 0 * c.credit.getD 0)).sum_eq
  have hg := (hf.map (fun c => (germanGrade c.score).getD 0 * c.credit.getD 0)).sum_eq
  rw [calculateTotals_unfold, calculateTotals_unfold, hc, hs, hg, hf.length_eq]

/-- Witness for C9: swapping two concrete records. -/
theorem calculateTotals_perm_witness :
    calculateTotals [⟨some "a", some 5, some 80⟩, ⟨some "b", some (5/2), some 90⟩] =
      calculateTotals [⟨some "b", some (5/2), some 90⟩, ⟨some "a", some 5, some 80⟩] :=
  calculateTotals_perm _ _
    (List.Perm.swap (⟨some "b", some (5/2), some 90⟩ : CourseRecord)
      (⟨some "a", some 5, some 80⟩ : CourseRecord) [])

/-- C10: `parseNumber` accepts raw strings that merely begin with a
numeric literal, returning the leading numeric value: `85abc` parses to
85 and `90%` parses to 90, so such inputs count as entered scores. -/
theorem parseNumber_leadingNumeral :
    parseNumber (some "85abc") = some 85 ∧ parseNumber (some "90%") = some 90 := by
  constructor
  · have h1 : parseFloat "85abc" = JsNumber.val (assembleFloat false ['8', '5'] [] false []) := rfl
    have hd : digitsToNat ['8', '5'] = 85 := rfl
    have he : digitsToNat ([] : List Char) = 0 := rfl
    have h2 : assembleFloat false ['8', '5'] [] false [] = 85 := by
      simp [assembleFloat, hd, he]
    simp [parseNumber, h1, h2]
  · have h1 : parseFloat "90%" = JsNumber.val (assembleFloat false ['9', '0'] [] false []) := rfl
    have hd : digitsToNat ['9', '0'] = 90 := rfl
    have he : digitsToNat ([] : List Char) = 0 := rfl
    have h2 : assembleFloat false ['9', '0'] [] false [] = 90 := by
      simp [assembleFloat, hd, he]
    simp [parseNumber, h1, h2]

end BiUH
